import Mathlib

/-!
Shallow embedding of the incremental ingestion engine of the bank-of-canada
connector, together with proofs about its merge, planning, sync-loop,
date-normalization and wide-table pivot logic.

The embedded code lives in:
* src/src/nodes/series_data.py  (fetch planning, merge/dedup, sync loop)
* src/src/nodes/datasets.py     (date normalization, wide-table transform)

Python strings are modelled as Lean `String`, Python dicts as insertion-ordered
association lists, Python sets of strings as membership on lists, and raised
exceptions as `Except.error`.
-/

namespace BoC

/-- Decidable equality for raised-or-returned results, so that concrete
runs of the embedded code can be checked by evaluation. -/
instance {ε α : Type} [DecidableEq ε] [DecidableEq α] : DecidableEq (Except ε α) := by
  intro a b
  cases a <;> cases b
  case error.error e1 e2 =>
    exact if h : e1 = e2 then isTrue (by rw [h]) else isFalse (by simp [h])
  case error.ok e1 a2 => exact isFalse (by simp)
  case ok.error a1 e2 => exact isFalse (by simp)
  case ok.ok a1 a2 =>
    exact if h : a1 = a2 then isTrue (by rw [h]) else isFalse (by simp [h])

/-! ## String ordering (Python code-point lexicographic order) -/

/-- Lexicographic strict order on character lists by Unicode code point.
Models the ordering Python uses to compare the timestamp strings. -/
def listLt : List Char → List Char → Bool
  | [], [] => false
  | [], _ :: _ => true
  | _ :: _, [] => false
  | a :: as, b :: bs => if a = b then listLt as bs else decide (a.toNat < b.toNat)

/-- Strict string comparison, modelling the Python comparison of date strings. -/
def strLt (a b : String) : Bool := listLt a.data b.data

/-- Non-strict string comparison derived from `strLt`. -/
def strLe (a b : String) : Bool := !(strLt b a)

/-- Python builtin max over a list with first element x: keeps the current
value unless a strictly larger one appears. -/
def maxStr (x : String) (l : List String) : String :=
  l.foldl (fun acc s => if strLt acc s then s else acc) x

/-- Python max over a possibly empty list of strings (none when empty,
where Python would raise; call sites guard non-emptiness). -/
def maxStr? : List String → Option String
  | [] => none
  | x :: xs => some (maxStr x xs)

/-! ## Observations and the merge/dedup step (series_data.py, run, lines 130-199) -/

/-- One observation row as stored in the per-series raw JSON: the fields
written by fetch_series_observations (date, series_code, value) plus the
metadata enrichment fields added at merge time (series_label,
series_description). -/
structure Obs where
  date : String
  seriesCode : String
  value : String
  label : String
  descr : String
deriving DecidableEq

/-- Timestamp well-formedness test used throughout series_data.py
(lines 139, 172, 173, 185): Python truthiness of the date string together
with membership of the '-' date separator. -/
def validDate (d : String) : Bool := d != "" && d.data.contains '-'

/-- The list comprehension [obs[\x22date\x22] for obs in l if valid] used at
series_data.py lines 139 and 185: dates of the well-formed observations,
in list order. -/
def validDates (l : List Obs) : List String :=
  (l.filter (fun o => validDate o.date)).map (fun o => o.date)

/-- The new_unique comprehension of series_data.py line 173: newly fetched
observations whose date is well-formed and not among the well-formed
existing dates (line 172). -/
def newUnique (existing newObs : List Obs) : List Obs :=
  newObs.filter (fun o => validDate o.date && !((validDates existing).contains o.date))

/-- The merged list all_obs = existing_obs + new_unique of
series_data.py line 174. -/
def mergeList (existing newObs : List Obs) : List Obs :=
  existing ++ newUnique existing newObs

/-! ## Calendar arithmetic (models strptime/timedelta of series_data.py line 150) -/

/-- Gregorian leap-year rule, as implemented by the Python datetime library. -/
def isLeap (y : Nat) : Bool := y % 4 == 0 && (y % 100 != 0 || y % 400 == 0)

/-- Number of days in a month of the proleptic Gregorian calendar. -/
def daysInMonth (y m : Nat) : Nat :=
  if m == 2 then (if isLeap y then 29 else 28)
  else if m == 4 || m == 6 || m == 9 || m == 11 then 30
  else 31

/-- Numeric value of a decimal digit character. -/
def digitVal (c : Char) : Nat := c.toNat - 48

/-- Parse of a zero-padded ISO date YYYY-MM-DD with calendar validation,
modelling datetime.strptime(s, \x22%Y-%m-%d\x22): none models a raised
ValueError. -/
def parseISO (s : String) : Option (Nat × Nat × Nat) :=
  match s.data with
  | [y1, y2, y3, y4, h1, m1, m2, h2, d1, d2] =>
    if y1.isDigit && y2.isDigit && y3.isDigit && y4.isDigit && h1 == '-' &&
        m1.isDigit && m2.isDigit && h2 == '-' && d1.isDigit && d2.isDigit then
      let y := ((digitVal y1 * 10 + digitVal y2) * 10 + digitVal y3) * 10 + digitVal y4
      let m := digitVal m1 * 10 + digitVal m2
      let d := digitVal d1 * 10 + digitVal d2
      if 1 ≤ y && 1 ≤ m && m ≤ 12 && 1 ≤ d && d ≤ daysInMonth y m then
        some (y, m, d)
      else none
    else none
  | _ => none

/-- Two-digit zero padding, as produced by strftime %m and %d. -/
def pad2 (n : Nat) : String := if n < 10 then "0" ++ toString n else toString n

/-- Four-digit zero padding, as produced by strftime %Y. -/
def pad4 (n : Nat) : String :=
  if n < 10 then "000" ++ toString n
  else if n < 100 then "00" ++ toString n
  else if n < 1000 then "0" ++ toString n
  else toString n

/-- Format a date back to YYYY-MM-DD, modelling strftime(\x22%Y-%m-%d\x22). -/
def fmtISO (y m d : Nat) : String := pad4 y ++ "-" ++ pad2 m ++ "-" ++ pad2 d

/-- The expression strptime(last_date, \x22%Y-%m-%d\x22) + timedelta(days=1)
rendered back with strftime (series_data.py line 150). Returns none where
Python would raise: a date that fails to parse, or stepping past the
datetime.max year 9999. -/
def nextDay (s : String) : Option String :=
  match parseISO s with
  | none => none
  | some (y, m, d) =>
    if y == 9999 && m == 12 && d == 31 then none
    else if d < daysInMonth y m then some (fmtISO y m (d + 1))
    else if m < 12 then some (fmtISO y (m + 1) 1)
    else some (fmtISO (y + 1) 1 1)

/-! ## Incremental fetch planner (series_data.py, run, lines 136-152) -/

/-- Python truthiness of an optional string (None and the empty string are
falsy). -/
def truthy? : Option String → Bool
  | none => false
  | some s => s != ""

/-- Lines 136-141: last_date from the state store, re-derived from the
stored observations as max of the well-formed dates when the state entry is
missing (or falsy) and stored observations exist. -/
def deriveLast (wm : Option String) (existing : List Obs) : Option String :=
  if !truthy? wm && !existing.isEmpty then
    match maxStr? (validDates existing) with
    | some m => some m
    | none => wm
  else wm

/-- Lines 143-152: the fetch start boundary. Quarter-coded last_date is used
as-is (line 148), a daily last_date advances one day (line 150, where a
strptime failure propagates as an error), and a falsy last_date yields the
beginning-of-time sentinel (line 152). -/
def planStart (wm : Option String) (existing : List Obs) : Except Unit String :=
  match deriveLast wm existing with
  | some d =>
    if d != "" then
      if d.data.contains 'Q' then Except.ok d
      else
        match nextDay d with
        | some nd => Except.ok nd
        | none => Except.error ()
    else Except.ok "1900-01-01"
  | none => Except.ok "1900-01-01"

/-! ## Per-entity sync loop (series_data.py, run, lines 105-202) -/

/-- One row of the parsed series catalog, with the fields the loop reads:
series[\x27name\x27], series.get(\x27label\x27), series.get(\x27description\x27). -/
structure SeriesRow where
  name : String
  label : String
  description : String
deriving DecidableEq

/-- Metadata enrichment of lines 167-169: every newly fetched observation
gains the series label and description. -/
def enrich (s : SeriesRow) (l : List Obs) : List Obs :=
  l.map fun o => { o with label := s.label, descr := s.description }

/-- Python dict assignment m[k] = v on an insertion-ordered association
list: overwrite in place when the key exists, append otherwise. -/
def setA {β : Type} (k : String) (v : β) : List (String × β) → List (String × β)
  | [] => [(k, v)]
  | (k0, v0) :: rest => if k0 == k then (k0, v) :: rest else (k0, v0) :: setA k v rest

/-- Python set.add on a membership list. -/
def insertSet (k : String) (l : List String) : List String :=
  if l.contains k then l else l ++ [k]

/-- The mutable state of one ingestion run: the per-series observation
store (raw/series/*.json), per-series watermarks (series_states, storing
the last_date string), the fetched-series ledger, and the three counters
reported at line 201. -/
structure LoopState where
  obsStore : List (String × List Obs)
  seriesStates : List (String × String)
  fetched : List String
  updated : Nat
  skipped : Nat
  inaccessible : Nat
deriving DecidableEq

/-- The body of the per-series loop of run (series_data.py lines 130-199)
for a single series. The fetch collaborator is passed in: Except.error
models a raised fetch exception (fatal), ok none models the inaccessible
(403/404) sentinel, ok (some l) models returned data. -/
def stepSeries (fetch : String → String → Except Unit (Option (List Obs)))
    (series : SeriesRow) (st : LoopState) : Except Unit LoopState :=
  let code := series.name
  let existing := (st.obsStore.lookup code).getD []
  let wm := st.seriesStates.lookup code
  match planStart wm existing with
  | Except.error e => Except.error e
  | Except.ok start =>
    match fetch code start with
    | Except.error e => Except.error e
    | Except.ok none => Except.ok { st with inaccessible := st.inaccessible + 1 }
    | Except.ok (some newObs0) =>
      if newObs0.isEmpty then
        Except.ok { st with skipped := st.skipped + 1, fetched := insertSet code st.fetched }
      else
        let newObs := enrich series newObs0
        let uniq := newUnique existing newObs
        let allObs := mergeList existing newObs
        if uniq.isEmpty then
          Except.ok { st with skipped := st.skipped + 1, fetched := insertSet code st.fetched }
        else
          let store2 := setA code allObs st.obsStore
          let states2 :=
            match maxStr? (validDates newObs) with
            | some nd => setA code nd st.seriesStates
            | none => st.seriesStates
          Except.ok { st with
            obsStore := store2
            seriesStates := states2
            fetched := insertSet code st.fetched
            updated := st.updated + 1 }

/-- The whole loop of run over the series catalog, threading the state.
The wall-clock budget check (line 126) is an early exit that performs no
state change and is not modelled. -/
def runLoop (fetch : String → String → Except Unit (Option (List Obs)))
    (rows : List SeriesRow) (st : LoopState) : Except Unit LoopState :=
  match rows with
  | [] => Except.ok st
  | r :: rs =>
    match stepSeries fetch r st with
    | Except.error e => Except.error e
    | Except.ok st2 => runLoop fetch rs st2

/-- An HTTP response as seen by fetch_series_observations: the status code
and the observation rows the CSV body parses to (the wire-format parsing is
the external collaborator and is abstracted as a field). -/
structure HttpResponse where
  status : Nat
  rows : List Obs
deriving DecidableEq

/-- Status handling of fetch_series_observations (series_data.py
lines 57-89): 403 and 404 return the inaccessible sentinel None, any other
HTTP error status raises via raise_for_status, and a success status yields
the parsed rows. -/
def fetchFromResponse (resp : HttpResponse) : Except Unit (Option (List Obs)) :=
  if resp.status == 403 then Except.ok none
  else if resp.status == 404 then Except.ok none
  else if 400 ≤ resp.status && resp.status < 600 then Except.error ()
  else Except.ok (some resp.rows)

/-! ## Date normalization (datasets.py, normalize_date, lines 20-53) -/

/-- Four decimal digit characters. -/
def isDigit4 (y1 y2 y3 y4 : Char) : Bool :=
  y1.isDigit && y2.isDigit && y3.isDigit && y4.isDigit

/-- The regex match for the quarterly pattern (datasets.py line 34). -/
def quarterlyMatch : List Char → Bool
  | [y1, y2, y3, y4, q, n] =>
    isDigit4 y1 y2 y3 y4 && q == 'Q' && (n == '1' || n == '2' || n == '3' || n == '4')
  | _ => false

/-- The regex match for the YYYY-MM-DD pattern (datasets.py line 39). -/
def dailyMatch : List Char → Bool
  | [y1, y2, y3, y4, h1, m1, m2, h2, d1, d2] =>
    isDigit4 y1 y2 y3 y4 && h1 == '-' && m1.isDigit && m2.isDigit && h2 == '-' &&
      d1.isDigit && d2.isDigit
  | _ => false

/-- The quarter bucket (int(month) - 1) // 3 + 1 of datasets.py line 47,
with Python floor division. -/
def quarterOf (m : Nat) : Int := ((m : Int) - 1).fdiv 3 + 1

/-- normalize_date of datasets.py lines 20-53: empty dates pass through,
a YYYYQn quarter code is rewritten to YYYY-Qn, a YYYY-MM-DD date is
truncated or re-bucketed according to the declared frequency, and anything
matching neither pattern passes through unchanged. -/
def normalize_date (date frequency : String) : String :=
  if date == "" then date
  else
    match date.data with
    | [y1, y2, y3, y4, q, n] =>
      if quarterlyMatch [y1, y2, y3, y4, q, n] then
        String.mk [y1, y2, y3, y4, '-', 'Q', n]
      else date
    | [y1, y2, y3, y4, h1, m1, m2, h2, d1, d2] =>
      if dailyMatch [y1, y2, y3, y4, h1, m1, m2, h2, d1, d2] then
        if frequency == "daily" then date
        else if frequency == "monthly" then String.mk [y1, y2, y3, y4, '-', m1, m2]
        else if frequency == "quarterly" then
          String.mk ([y1, y2, y3, y4, '-', 'Q'] ++
            (toString (quarterOf (digitVal m1 * 10 + digitVal m2))).data)
        else if frequency == "annual" || frequency == "biennial" ||
            frequency == "triennial" then
          String.mk [y1, y2, y3, y4]
        else date
      else date
    | _ => date

/-! ## Numeric values (model of the external float() parse) -/

/-- Digits with at most one decimal point and at least one digit. -/
def decimalBody (l : List Char) : Bool :=
  let intPart := l.takeWhile Char.isDigit
  let rest := l.dropWhile Char.isDigit
  match rest with
  | [] => !intPart.isEmpty
  | '.' :: frac => (!intPart.isEmpty || !frac.isEmpty) && frac.all Char.isDigit
  | _ => false

/-- Acceptance of the external Python float() parse used at transform time
(datasets.py lines 160-165), restricted to plain signed decimal literals
(optional sign, digits, at most one decimal point): the forms the numeric
observation values of this feed take. -/
def isNumeric (s : String) : Bool :=
  match s.data with
  | '+' :: rest => decimalBody rest
  | '-' :: rest => decimalBody rest
  | l => decimalBody l

/-! ## Wide-table transform (datasets.py, transform_dataset, lines 120-196) -/

/-- The cell writes performed by the two nested loops of transform_dataset
(lines 140-167), in traversal order: for each constituent series in mapping
order (series code paired with its output column name), for each stored
observation in list order, an observation with a truthy date and a
numerically parsing value contributes (normalized date, column, value). -/
def contribs (store : List (String × List Obs)) (frequency : String)
    (mapping : List (String × String)) : List (String × String × String) :=
  mapping.flatMap fun p =>
    ((store.lookup p.1).getD []).flatMap fun o =>
      if o.date != "" then
        if isNumeric o.value then
          [(normalize_date o.date frequency, p.2, o.value)]
        else []
      else []

/-- One assignment date_rows[date][column] = value of line 167 on the
nested association-list model of the defaultdict(dict). -/
def upsertCell (m : List (String × List (String × String)))
    (t : String × String × String) : List (String × List (String × String)) :=
  match m with
  | [] => [(t.1, [(t.2.1, t.2.2)])]
  | (d, cells) :: rest =>
    if d == t.1 then (d, setA t.2.1 t.2.2 cells) :: rest
    else (d, cells) :: upsertCell rest t

/-- The date_rows mapping after all cell writes. -/
def dateRowsOf (store : List (String × List Obs)) (frequency : String)
    (mapping : List (String × String)) : List (String × List (String × String)) :=
  (contribs store frequency mapping).foldl upsertCell []

/-- date_rows[date].get(column) of line 183. -/
def lookupCell (m : List (String × List (String × String))) (d c : String) :
    Option String :=
  match m.lookup d with
  | none => none
  | some cells => cells.lookup c

/-- Python sorted on a list of strings. Python uses a stable sort; the
lists this model sorts are the duplicate-free key lists of the date_rows
mapping, on which every sort that orders by strLe produces the same
output, so a structural insertion sort is used. -/
def sortStrings (l : List String) : List String :=
  l.insertionSort (fun a b => strLe a b = true)

/-- transform_dataset of datasets.py lines 120-196, up to the PyArrow
serialization: none when no observation contributed (line 171), otherwise
one output row per date in sorted order, each row carrying every mapped
output column with its cell value or none (lines 176-184). Values are
carried as their raw strings; float(value_str) is modelled by the
isNumeric acceptance filter inside contribs. -/
def transform_dataset (store : List (String × List Obs)) (frequency : String)
    (mapping : List (String × String)) :
    Option (List (String × List (String × Option String))) :=
  let dr := dateRowsOf store frequency mapping
  if dr.isEmpty then none
  else
    let allCols := mapping.map (fun p => p.2)
    some ((sortStrings (dr.map (fun p => p.1))).map fun d =>
      (d, allCols.map fun c => (c, lookupCell dr d c)))

/-! ## Order facts about the string comparison -/

theorem listLt_irrefl (l : List Char) : listLt l l = false := by
  induction l with
  | nil => rfl
  | cons a as ih => simp [listLt, ih]

theorem listLt_trans {a b c : List Char} (h1 : listLt a b = true)
    (h2 : listLt b c = true) : listLt a c = true := by
  induction a generalizing b c with
  | nil =>
    cases b with
    | nil => simp [listLt] at h1
    | cons y ys =>
      cases c with
      | nil => simp [listLt] at h2
      | cons z zs => simp [listLt]
  | cons x xs ih =>
    cases b with
    | nil => simp [listLt] at h1
    | cons y ys =>
      cases c with
      | nil => simp [listLt] at h2
      | cons z zs =>
        simp only [listLt] at h1 h2 ⊢
        by_cases hxy : x = y
        · subst hxy
          simp only [if_pos rfl] at h1
          by_cases hyz : x = z
          · subst hyz
            simp only [if_pos rfl] at h2 ⊢
            exact ih h1 h2
          · simp only [if_neg hyz] at h2 ⊢
            exact h2
        · simp only [if_neg hxy] at h1
          by_cases hyz : y = z
          · subst hyz
            simp only [if_neg hxy]
            exact h1
          · simp only [if_neg hyz] at h2
            have hlt : x.toNat < z.toNat :=
              Nat.lt_trans (of_decide_eq_true h1) (of_decide_eq_true h2)
            have hxz : x ≠ z := by
              intro hc
              subst hc
              exact Nat.lt_irrefl _ hlt
            simp [if_neg hxz, hlt]

theorem listLt_asymm {a b : List Char} (h : listLt a b = true) :
    listLt b a = false := by
  induction a generalizing b with
  | nil =>
    cases b with
    | nil => simp [listLt] at h
    | cons y ys => simp [listLt]
  | cons x xs ih =>
    cases b with
    | nil => simp [listLt] at h
    | cons y ys =>
      simp only [listLt] at h ⊢
      by_cases hxy : x = y
      · subst hxy
        simp only [if_pos rfl] at h ⊢
        exact ih h
      · simp only [if_neg hxy] at h
        have hyx : y ≠ x := fun hc => hxy hc.symm
        simp only [if_neg hyx]
        simp only [decide_eq_false_iff_not]
        exact Nat.not_lt.mpr (Nat.le_of_lt (of_decide_eq_true h))

theorem listLt_connex {a b : List Char} (h : a ≠ b) :
    listLt a b = true ∨ listLt b a = true := by
  induction a generalizing b with
  | nil =>
    cases b with
    | nil => exact absurd rfl h
    | cons y ys => left; simp [listLt]
  | cons x xs ih =>
    cases b with
    | nil => right; simp [listLt]
    | cons y ys =>
      by_cases hxy : x = y
      · subst hxy
        have hne : xs ≠ ys := by
          intro hc
          exact h (by rw [hc])
        rcases ih hne with h1 | h1
        · left; simp [listLt, h1]
        · right; simp [listLt, h1]
      · have hv : x.val ≠ y.val := fun hc => hxy (Char.ext hc)
        have hn : x.toNat ≠ y.toNat := fun hc => hv (UInt32.ext hc)
        rcases Nat.lt_or_ge x.toNat y.toNat with hlt | hge
        · left; simp [listLt, if_neg hxy, hlt]
        · have hlt2 : y.toNat < x.toNat := Nat.lt_of_le_of_ne hge (Ne.symm hn)
          have hyx : y ≠ x := fun hc => hxy hc.symm
          right; simp [listLt, if_neg hyx, hlt2]

theorem strLe_refl (a : String) : strLe a a = true := by
  simp [strLe, strLt, listLt_irrefl]

theorem strLe_total (a b : String) : strLe a b = true ∨ strLe b a = true := by
  by_cases h : a = b
  · subst h; left; exact strLe_refl a
  · have hd : a.data ≠ b.data := fun hc => h (String.ext hc)
    rcases listLt_connex hd with h1 | h1
    · left; simp [strLe, strLt, listLt_asymm h1]
    · right; simp [strLe, strLt, listLt_asymm h1]

theorem listLt_false_trans {a b c : List Char} (h1 : listLt b a = false)
    (h2 : listLt c b = false) : listLt c a = false := by
  by_cases hba : b = a
  · subst hba; exact h2
  · rcases listLt_connex hba with hx | hx
    · rw [hx] at h1; cases h1
    · by_cases hcb : c = b
      · subst hcb; exact h1
      · rcases listLt_connex hcb with hy | hy
        · rw [hy] at h2; cases h2
        · exact listLt_asymm (listLt_trans hx hy)

theorem strLe_trans {a b c : String} (h1 : strLe a b = true)
    (h2 : strLe b c = true) : strLe a c = true := by
  simp only [strLe, strLt, Bool.not_eq_true'] at h1 h2 ⊢
  exact listLt_false_trans h1 h2

theorem strLt_or_eq_of_le {a b : String} (h : strLe a b = true) :
    strLt a b = true ∨ a = b := by
  by_cases he : a = b
  · right; exact he
  · left
    have hd : a.data ≠ b.data := fun hc => he (String.ext hc)
    rcases listLt_connex hd with h1 | h1
    · exact h1
    · simp only [strLe, strLt, Bool.not_eq_true'] at h
      rw [h1] at h
      cases h

/-! ## Facts about Python max over string lists -/

theorem maxStr_mem (x : String) (l : List String) : maxStr x l ∈ x :: l := by
  induction l generalizing x with
  | nil => simp [maxStr]
  | cons s ss ih =>
    have hstep : maxStr x (s :: ss) = maxStr (if strLt x s then s else x) ss := rfl
    rw [hstep]
    have h := ih (if strLt x s then s else x)
    rw [List.mem_cons] at h
    rcases h with h | h
    · by_cases hc : strLt x s = true
      · rw [if_pos hc] at h
        rw [if_pos hc, h]
        simp
      · rw [if_neg hc] at h
        rw [if_neg hc, h]
        simp
    · simp only [List.mem_cons]
      right; right; exact h

theorem maxStr?_mem {l : List String} {m : String} (h : maxStr? l = some m) :
    m ∈ l := by
  cases l with
  | nil => cases h
  | cons x xs =>
    simp only [maxStr?, Option.some.injEq] at h
    subst h
    exact maxStr_mem x xs

/-! ## Small helper facts about the merge building blocks -/

theorem mem_validDates_of {l : List Obs} {o : Obs} (ho : o ∈ l)
    (hv : validDate o.date = true) : o.date ∈ validDates l := by
  simp only [validDates, List.mem_map]
  exact ⟨o, List.mem_filter.mpr ⟨ho, hv⟩, rfl⟩

theorem validDate_of_mem_validDates {l : List Obs} {d : String}
    (h : d ∈ validDates l) : validDate d = true := by
  simp only [validDates, List.mem_map] at h
  rcases h with ⟨o, ho, rfl⟩
  exact (List.mem_filter.mp ho).2

theorem validDates_enrich (s : SeriesRow) (l : List Obs) :
    validDates (enrich s l) = validDates l := by
  induction l with
  | nil => rfl
  | cons o os ih =>
    simp only [enrich, List.map_cons] at ih ⊢
    by_cases hv : validDate o.date = true
    · simp [validDates, List.filter_cons, hv] at ih ⊢
      exact ih
    · simp only [Bool.not_eq_true] at hv
      simp [validDates, List.filter_cons, hv] at ih ⊢
      exact ih

theorem validDates_ne_nil_of_newUnique {existing newObs : List Obs}
    (h : newUnique existing newObs ≠ []) : validDates newObs ≠ [] := by
  rcases List.exists_mem_of_ne_nil _ h with ⟨o, ho⟩
  have hm := List.mem_filter.mp ho
  have hv : validDate o.date = true := by
    have := hm.2
    simp only [Bool.and_eq_true] at this
    exact this.1
  intro hc
  have : o.date ∈ validDates newObs := mem_validDates_of hm.1 hv
  rw [hc] at this
  cases this

/-! ## Association-list and set facts -/

theorem contains_eq_mem {α : Type} [BEq α] [LawfulBEq α] (l : List α) (a : α) :
    l.contains a = true ↔ a ∈ l := by
  show l.elem a = true ↔ a ∈ l
  exact List.elem_iff

theorem lookup_setA {β : Type} (k : String) (v : β) (m : List (String × β))
    (k2 : String) :
    (setA k v m).lookup k2 = if k2 = k then some v else m.lookup k2 := by
  induction m with
  | nil =>
    by_cases h : k2 = k
    · subst h; simp [setA, List.lookup]
    · have hb : (k2 == k) = false := beq_eq_false_iff_ne.mpr h
      simp [setA, List.lookup, hb, h]
  | cons p rest ih =>
    rcases p with ⟨k0, v0⟩
    by_cases h0 : k0 = k
    · subst h0
      have hrw : setA k0 v ((k0, v0) :: rest) = (k0, v) :: rest := by
        simp [setA]
      rw [hrw]
      by_cases h2 : k2 = k0
      · subst h2; simp [List.lookup]
      · have hb : (k2 == k0) = false := beq_eq_false_iff_ne.mpr h2
        simp [List.lookup, hb, h2]
    · have hne : (k0 == k) = false := beq_eq_false_iff_ne.mpr h0
      have hrw : setA k v ((k0, v0) :: rest) = (k0, v0) :: setA k v rest := by
        simp [setA, hne]
      rw [hrw]
      by_cases h2 : k2 = k0
      · subst h2
        have hk : ¬k2 = k := fun hc => h0 (by rw [hc])
        simp [List.lookup, hk]
      · have hb : (k2 == k0) = false := beq_eq_false_iff_ne.mpr h2
        simp [List.lookup, hb, ih]

theorem mem_insertSet (k : String) (l : List String) : k ∈ insertSet k l := by
  simp only [insertSet]
  by_cases h : l.contains k = true
  · rw [if_pos h]
    exact (contains_eq_mem l k).mp h
  · rw [if_neg h]
    simp

/-! ## Behavior of one loop iteration when nothing new arrives -/

theorem newUnique_eq_nil_of_covered {existing L : List Obs} (s : SeriesRow)
    (h : ∀ o ∈ L, validDate o.date = true → o.date ∈ validDates existing) :
    newUnique existing (enrich s L) = [] := by
  rw [newUnique, List.filter_eq_nil_iff]
  intro o2 ho2
  simp only [enrich, List.mem_map] at ho2
  rcases ho2 with ⟨o, hoL, rfl⟩
  simp only [Bool.and_eq_true, Bool.not_eq_true', not_and]
  intro hv
  have hmem : o.date ∈ validDates existing := h o hoL hv
  have hc : (validDates existing).contains o.date = true :=
    (contains_eq_mem _ _).mpr hmem
  simp [hc]
  exact hmem

theorem stepSeries_no_new {fetch : String → String → Except Unit (Option (List Obs))}
    {series : SeriesRow} {st st2 : LoopState}
    (hok : stepSeries fetch series st = Except.ok st2)
    (hno : ∀ sd L, fetch series.name sd = Except.ok (some L) →
      newUnique ((st.obsStore.lookup series.name).getD []) (enrich series L) = []) :
    st2.obsStore = st.obsStore ∧ st2.seriesStates = st.seriesStates := by
  rcases hplan : planStart (st.seriesStates.lookup series.name)
      ((st.obsStore.lookup series.name).getD []) with e | start
  · simp only [stepSeries, hplan] at hok
    cases hok
  · simp only [stepSeries, hplan] at hok
    rcases hf : fetch series.name start with e | res
    · rw [hf] at hok
      cases hok
    · rw [hf] at hok
      rcases res with _ | L
      · rcases hok with ⟨⟩
        exact ⟨rfl, rfl⟩
      · have huniq := hno start L hf
        rcases L with _ | ⟨o, L0⟩
        · simp only [List.isEmpty_nil, if_true] at hok
          rcases hok with ⟨⟩
          exact ⟨rfl, rfl⟩
        · simp only [List.isEmpty_cons, if_false, Bool.false_eq_true] at hok
          rw [huniq] at hok
          simp only [List.isEmpty_nil, if_true] at hok
          rcases hok with ⟨⟩
          exact ⟨rfl, rfl⟩

theorem runLoop_no_new_aux
    (fetch : String → String → Except Unit (Option (List Obs)))
    (rows : List SeriesRow) (st1 : LoopState)
    (hno : ∀ r ∈ rows, ∀ sd L, fetch r.name sd = Except.ok (some L) →
      ∀ o ∈ L, validDate o.date = true →
        o.date ∈ validDates ((st1.obsStore.lookup r.name).getD [])) :
    ∀ st st2, st.obsStore = st1.obsStore → st.seriesStates = st1.seriesStates →
      runLoop fetch rows st = Except.ok st2 →
      st2.obsStore = st1.obsStore ∧ st2.seriesStates = st1.seriesStates := by
  induction rows with
  | nil =>
    intro st st2 h1 h2 hrun
    rcases hrun with ⟨⟩
    exact ⟨h1, h2⟩
  | cons r rs ih =>
    intro st st2 h1 h2 hrun
    simp only [runLoop] at hrun
    rcases hstep : stepSeries fetch r st with e | stm
    · rw [hstep] at hrun
      cases hrun
    · rw [hstep] at hrun
      have hcov : ∀ sd L, fetch r.name sd = Except.ok (some L) →
          newUnique ((st.obsStore.lookup r.name).getD []) (enrich r L) = [] := by
        intro sd L hf
        apply newUnique_eq_nil_of_covered
        intro o ho hv
        rw [h1]
        exact hno r (List.mem_cons_self r rs) sd L hf o ho hv
      have hfields := stepSeries_no_new hstep hcov
      exact ih (fun r2 hr2 => hno r2 (List.mem_cons_of_mem r hr2)) stm st2
        (hfields.1.trans h1) (hfields.2.trans h2) hrun

/-! ## Claim C3: idempotent convergence of the sync loop -/

/-- C3: running the sync loop again when the upstream fetch returns no
well-formed observation dates beyond those already stored leaves the
observation store and every watermark identical to the state the first run
produced. -/
theorem run_idempotent_when_no_new_data
    (fetch : String → String → Except Unit (Option (List Obs)))
    (rows : List SeriesRow) (st1 st2 : LoopState)
    (hno : ∀ r ∈ rows, ∀ sd L, fetch r.name sd = Except.ok (some L) →
      ∀ o ∈ L, validDate o.date = true →
        o.date ∈ validDates ((st1.obsStore.lookup r.name).getD []))
    (hok : runLoop fetch rows st1 = Except.ok st2) :
    st2.obsStore = st1.obsStore ∧ st2.seriesStates = st1.seriesStates :=
  runLoop_no_new_aux fetch rows st1 hno st1 st2 rfl rfl hok

/-- Witness for C3: a concrete second run whose fetch returns only an
already-stored observation changes neither the store nor the watermark. -/
theorem run_idempotent_when_no_new_data_witness :
    (LoopState.mk [("A", [⟨"2020-01-01", "A", "1.0", "L", "D"⟩])]
        [("A", "2020-01-01")] ["A"] 0 1 0).obsStore
      = (LoopState.mk [("A", [⟨"2020-01-01", "A", "1.0", "L", "D"⟩])]
        [("A", "2020-01-01")] ["A"] 0 0 0).obsStore ∧
    (LoopState.mk [("A", [⟨"2020-01-01", "A", "1.0", "L", "D"⟩])]
        [("A", "2020-01-01")] ["A"] 0 1 0).seriesStates
      = (LoopState.mk [("A", [⟨"2020-01-01", "A", "1.0", "L", "D"⟩])]
        [("A", "2020-01-01")] ["A"] 0 0 0).seriesStates :=
  run_idempotent_when_no_new_data
    (fun _ _ => Except.ok (some [⟨"2020-01-01", "A", "1.0", "L", "D"⟩]))
    [⟨"A", "L", "D"⟩]
    (LoopState.mk [("A", [⟨"2020-01-01", "A", "1.0", "L", "D"⟩])]
      [("A", "2020-01-01")] ["A"] 0 0 0)
    (LoopState.mk [("A", [⟨"2020-01-01", "A", "1.0", "L", "D"⟩])]
      [("A", "2020-01-01")] ["A"] 0 1 0)
    (by
      intro r hr sd L hf o ho hv
      simp only [List.mem_singleton] at hr
      subst hr
      cases hf
      simp only [List.mem_singleton] at ho
      subst ho
      decide)
    (by decide)

/-! ## Claim C5: a fully duplicate batch changes nothing but the ledger -/

/-- Shared skip-branch fact: with zero unique-new observations the step
only bumps the skipped counter and the fetched ledger. -/
theorem stepSeries_dup_state
    {fetch : String → String → Except Unit (Option (List Obs))}
    {series : SeriesRow} {st st2 : LoopState} {L : List Obs}
    (hf : ∀ sd, fetch series.name sd = Except.ok (some L))
    (hdup : newUnique ((st.obsStore.lookup series.name).getD [])
      (enrich series L) = [])
    (hok : stepSeries fetch series st = Except.ok st2) :
    st2 = { st with skipped := st.skipped + 1,
                    fetched := insertSet series.name st.fetched } := by
  rcases hplan : planStart (st.seriesStates.lookup series.name)
      ((st.obsStore.lookup series.name).getD []) with e | start
  · simp only [stepSeries, hplan] at hok
    cases hok
  · simp only [stepSeries, hplan] at hok
    rw [hf start] at hok
    rcases L with _ | ⟨o, L0⟩
    · simp only [List.isEmpty_nil, if_true] at hok
      rcases hok with ⟨⟩
      rfl
    · simp only [List.isEmpty_cons, if_false, Bool.false_eq_true] at hok
      rw [hdup] at hok
      simp only [List.isEmpty_nil, if_true] at hok
      rcases hok with ⟨⟩
      rfl

/-- Shared update-branch fact: with a non-empty unique-new set the step
writes the merged list into the store and the max well-formed fetched
date into the watermark map. -/
theorem stepSeries_update_state
    {fetch : String → String → Except Unit (Option (List Obs))}
    {series : SeriesRow} {st st2 : LoopState} {L : List Obs}
    (hf : ∀ sd, fetch series.name sd = Except.ok (some L))
    (hne : newUnique ((st.obsStore.lookup series.name).getD [])
      (enrich series L) ≠ [])
    (hok : stepSeries fetch series st = Except.ok st2) :
    ∃ nd, maxStr? (validDates (enrich series L)) = some nd ∧
      st2.seriesStates = setA series.name nd st.seriesStates ∧
      st2.obsStore = setA series.name
        (mergeList ((st.obsStore.lookup series.name).getD []) (enrich series L))
        st.obsStore ∧
      st2.fetched = insertSet series.name st.fetched ∧
      st2.updated = st.updated + 1 := by
  rcases hplan : planStart (st.seriesStates.lookup series.name)
      ((st.obsStore.lookup series.name).getD []) with e | start
  · simp only [stepSeries, hplan] at hok
    cases hok
  · simp only [stepSeries, hplan] at hok
    rw [hf start] at hok
    rcases L with _ | ⟨o, L0⟩
    · exact absurd rfl hne
    · simp only [List.isEmpty_cons, if_false, Bool.false_eq_true] at hok
      have hie : (newUnique ((st.obsStore.lookup series.name).getD [])
          (enrich series (o :: L0))).isEmpty = false := by
        rcases hu : newUnique ((st.obsStore.lookup series.name).getD [])
            (enrich series (o :: L0)) with _ | _
        · exact absurd hu hne
        · rfl
      rw [hie] at hok
      simp only [Bool.false_eq_true, if_false] at hok
      have hvd : validDates (enrich series (o :: L0)) ≠ [] :=
        validDates_ne_nil_of_newUnique hne
      rcases hvds : validDates (enrich series (o :: L0)) with _ | ⟨d0, ds⟩
      · exact absurd hvds hvd
      · rw [hvds] at hok
        simp only [maxStr?] at hok
        rcases hok with ⟨⟩
        exact ⟨maxStr d0 ds, rfl, rfl, rfl, rfl, rfl⟩

/-- C5: when the fetched batch has zero unique-new observations, the step
leaves the observation store and the watermark record untouched, does not
count an update, and still marks the entity as fetched. -/
theorem duplicate_batch_skips_persistence
    (fetch : String → String → Except Unit (Option (List Obs)))
    (series : SeriesRow) (st st2 : LoopState) (L : List Obs)
    (hf : ∀ sd, fetch series.name sd = Except.ok (some L))
    (hdup : newUnique ((st.obsStore.lookup series.name).getD [])
      (enrich series L) = [])
    (hok : stepSeries fetch series st = Except.ok st2) :
    st2.obsStore = st.obsStore ∧ st2.seriesStates = st.seriesStates ∧
    series.name ∈ st2.fetched ∧ st2.updated = st.updated := by
  have h := stepSeries_dup_state hf hdup hok
  subst h
  exact ⟨rfl, rfl, mem_insertSet _ _, rfl⟩

/-- Witness for C5: a batch duplicating the single stored observation
leaves store and watermark unchanged, counts no update, and marks the
entity fetched. -/
theorem duplicate_batch_skips_persistence_witness :
    (LoopState.mk [("A", [⟨"2023-01-01", "A", "2.0", "", ""⟩])]
        [("A", "2023-01-01")] ["A"] 0 1 0).obsStore
        = (LoopState.mk [("A", [⟨"2023-01-01", "A", "2.0", "", ""⟩])]
        [("A", "2023-01-01")] [] 0 0 0).obsStore ∧
    (LoopState.mk [("A", [⟨"2023-01-01", "A", "2.0", "", ""⟩])]
        [("A", "2023-01-01")] ["A"] 0 1 0).seriesStates
        = (LoopState.mk [("A", [⟨"2023-01-01", "A", "2.0", "", ""⟩])]
        [("A", "2023-01-01")] [] 0 0 0).seriesStates ∧
    "A" ∈ (LoopState.mk [("A", [⟨"2023-01-01", "A", "2.0", "", ""⟩])]
        [("A", "2023-01-01")] ["A"] 0 1 0).fetched ∧
    (LoopState.mk [("A", [⟨"2023-01-01", "A", "2.0", "", ""⟩])]
        [("A", "2023-01-01")] ["A"] 0 1 0).updated
        = (LoopState.mk [("A", [⟨"2023-01-01", "A", "2.0", "", ""⟩])]
        [("A", "2023-01-01")] [] 0 0 0).updated :=
  duplicate_batch_skips_persistence
    (fun _ _ => Except.ok (some [⟨"2023-01-01", "A", "2.0", "", ""⟩]))
    ⟨"A", "L", "D"⟩
    (LoopState.mk [("A", [⟨"2023-01-01", "A", "2.0", "", ""⟩])]
      [("A", "2023-01-01")] [] 0 0 0)
    (LoopState.mk [("A", [⟨"2023-01-01", "A", "2.0", "", ""⟩])]
      [("A", "2023-01-01")] ["A"] 0 1 0)
    [⟨"2023-01-01", "A", "2.0", "", ""⟩]
    (fun _ => rfl)
    (by decide)
    (by decide)

/-! ## Claim C6: inaccessible entities are skipped, other failures fatal -/

/-- C6: a fetch signalling inaccessibility (the 403/404 sentinel) makes
the step succeed while only incrementing the inaccessible counter, leaving
the store, watermarks and fetched ledger untouched; a fetch raising any
other failure makes the whole step fail; and the response handler maps 403
and 404 to the sentinel and every other HTTP error status to a raised
failure. -/
theorem inaccessible_skipped_other_failures_fatal
    (fetch : String → String → Except Unit (Option (List Obs)))
    (series : SeriesRow) (st : LoopState) (s0 : String) (rs : List Obs)
    (hplan : planStart (st.seriesStates.lookup series.name)
      ((st.obsStore.lookup series.name).getD []) = Except.ok s0) :
    ((∀ sd, fetch series.name sd = Except.ok none) →
      stepSeries fetch series st
        = Except.ok { st with inaccessible := st.inaccessible + 1 }) ∧
    ((∀ sd, fetch series.name sd = Except.error ()) →
      stepSeries fetch series st = Except.error ()) ∧
    fetchFromResponse ⟨403, rs⟩ = Except.ok none ∧
    fetchFromResponse ⟨404, rs⟩ = Except.ok none ∧
    (∀ s, 400 ≤ s → s < 600 → s ≠ 403 → s ≠ 404 →
      fetchFromResponse ⟨s, rs⟩ = Except.error ()) := by
  refine ⟨?_, ?_, rfl, rfl, ?_⟩
  · intro hf
    simp only [stepSeries, hplan, hf s0]
  · intro hf
    simp only [stepSeries, hplan, hf s0]
  · intro s h1 h2 h3 h4
    have hb3 : (s == 403) = false := by
      simp only [beq_eq_false_iff_ne, ne_eq]
      exact h3
    have hb4 : (s == 404) = false := by
      simp only [beq_eq_false_iff_ne, ne_eq]
      exact h4
    have hd1 : decide (400 ≤ s) = true := decide_eq_true h1
    have hd2 : decide (s < 600) = true := decide_eq_true h2
    simp [fetchFromResponse, hb3, hb4, hd1, hd2]

/-- Witness for C6: a concrete state with an inaccessible fetch is skipped
with only the counter advanced; a concrete failing fetch fails the step;
and the 403/404/500 statuses map as described. -/
theorem inaccessible_skipped_other_failures_fatal_witness :
    stepSeries (fun _ _ => Except.ok none) ⟨"A", "L", "D"⟩
        (LoopState.mk [] [] [] 0 0 0)
      = Except.ok (LoopState.mk [] [] [] 0 0 1) ∧
    stepSeries (fun _ _ => Except.error ()) ⟨"A", "L", "D"⟩
        (LoopState.mk [] [] [] 0 0 0)
      = Except.error () ∧
    fetchFromResponse ⟨403, []⟩ = Except.ok none ∧
    fetchFromResponse ⟨404, []⟩ = Except.ok none ∧
    fetchFromResponse ⟨500, []⟩ = Except.error () := by
  have h := inaccessible_skipped_other_failures_fatal
    (fun _ _ => Except.ok none) ⟨"A", "L", "D"⟩ (LoopState.mk [] [] [] 0 0 0)
    "1900-01-01" [] (by decide)
  have h2 := inaccessible_skipped_other_failures_fatal
    (fun _ _ => Except.error ()) ⟨"A", "L", "D"⟩ (LoopState.mk [] [] [] 0 0 0)
    "1900-01-01" [] (by decide)
  refine ⟨?_, ?_, h.2.2.1, h.2.2.2.1, ?_⟩
  · exact h.1 (fun _ => rfl)
  · exact h2.2.1 (fun _ => rfl)
  · exact h.2.2.2.2 500 (by decide) (by decide) (by decide) (by decide)

/-! ## Claim C4: watermark update rule -/

/-- Counterexample for C4 as stated: a backfill batch whose only (unique
and new) well-formed date lies before the old watermark makes the stored
watermark regress under string ordering, so new watermark is not greater
than or equal to the old one after a merge with non-empty unique-new
data. -/
theorem watermark_monotonicity_counterexample :
    newUnique (((([("A", [⟨"2023-01-01", "A", "2.0", "", ""⟩])] :
        List (String × List Obs))).lookup "A").getD [])
        (enrich ⟨"A", "L", "D"⟩ [⟨"1999-01-05", "A", "1.0", "", ""⟩]) ≠ [] ∧
    stepSeries (fun _ _ => Except.ok (some [⟨"1999-01-05", "A", "1.0", "", ""⟩]))
        ⟨"A", "L", "D"⟩
        (LoopState.mk [("A", [⟨"2023-01-01", "A", "2.0", "", ""⟩])]
          [("A", "2023-01-01")] ["A"] 0 0 0)
      = Except.ok (LoopState.mk
          [("A", [⟨"2023-01-01", "A", "2.0", "", ""⟩,
                  ⟨"1999-01-05", "A", "1.0", "L", "D"⟩])]
          [("A", "1999-01-05")] ["A"] 1 0 0) ∧
    strLt "1999-01-05" "2023-01-01" = true := by
  refine ⟨by decide, by decide, by decide⟩

/-- C4 amended: the watermark is unchanged when the unique-new set is
empty; with a non-empty unique-new set the new watermark is the maximum
well-formed timestamp of the newly fetched batch (not of the merged set);
and it is greater than or equal to the old watermark provided every
well-formed fetched timestamp is at least the old watermark, which the
upstream contract of fetching from the planned boundary forward supplies
but the code itself does not enforce. -/
theorem watermark_monotonicity_amended
    (fetch : String → String → Except Unit (Option (List Obs)))
    (series : SeriesRow) (st st2 : LoopState) (L : List Obs) (w : String)
    (hok : stepSeries fetch series st = Except.ok st2)
    (hf : ∀ sd, fetch series.name sd = Except.ok (some L))
    (hw : st.seriesStates.lookup series.name = some w) :
    (newUnique ((st.obsStore.lookup series.name).getD [])
        (enrich series L) = [] →
      st2.seriesStates = st.seriesStates) ∧
    (newUnique ((st.obsStore.lookup series.name).getD [])
        (enrich series L) ≠ [] →
      st2.seriesStates.lookup series.name
        = maxStr? (validDates (enrich series L))) ∧
    (newUnique ((st.obsStore.lookup series.name).getD [])
        (enrich series L) ≠ [] →
      (∀ d ∈ validDates (enrich series L), strLe w d = true) →
      ∃ nw, st2.seriesStates.lookup series.name = some nw ∧
        strLe w nw = true) := by
  refine ⟨?_, ?_, ?_⟩
  · intro hdup
    have h := stepSeries_dup_state hf hdup hok
    subst h
    rfl
  · intro hne
    rcases stepSeries_update_state hf hne hok with ⟨nd, hmax, hstates, _⟩
    rw [hstates, lookup_setA, if_pos rfl, hmax]
  · intro hne hge
    rcases stepSeries_update_state hf hne hok with ⟨nd, hmax, hstates, _⟩
    refine ⟨nd, ?_, ?_⟩
    · rw [hstates, lookup_setA, if_pos rfl]
    · exact hge nd (maxStr?_mem hmax)

/-- Witness for C4 amended: the documented end-to-end scenario, where the
fetched batch [2020-01-01, 2020-01-03] against stored [2020-01-01,
2020-01-02] with watermark 2020-01-01 advances the watermark to
2020-01-03, the max of the fetched batch. -/
theorem watermark_monotonicity_amended_witness :
    ((LoopState.mk
        [("A", [⟨"2020-01-01", "A", "1.0", "", ""⟩,
                ⟨"2020-01-02", "A", "2.0", "", ""⟩,
                ⟨"2020-01-03", "A", "3.0", "L", "D"⟩])]
        [("A", "2020-01-03")] ["A"] 1 0 0).seriesStates.lookup "A"
      = maxStr? (validDates (enrich ⟨"A", "L", "D"⟩
          [⟨"2020-01-01", "A", "1.0", "", ""⟩,
           ⟨"2020-01-03", "A", "3.0", "", ""⟩]))) ∧
    (∃ nw, (LoopState.mk
        [("A", [⟨"2020-01-01", "A", "1.0", "", ""⟩,
                ⟨"2020-01-02", "A", "2.0", "", ""⟩,
                ⟨"2020-01-03", "A", "3.0", "L", "D"⟩])]
        [("A", "2020-01-03")] ["A"] 1 0 0).seriesStates.lookup "A" = some nw ∧
      strLe "2020-01-01" nw = true) := by
  have h := watermark_monotonicity_amended
    (fun _ _ => Except.ok (some [⟨"2020-01-01", "A", "1.0", "", ""⟩,
      ⟨"2020-01-03", "A", "3.0", "", ""⟩]))
    ⟨"A", "L", "D"⟩
    (LoopState.mk
      [("A", [⟨"2020-01-01", "A", "1.0", "", ""⟩,
              ⟨"2020-01-02", "A", "2.0", "", ""⟩])]
      [("A", "2020-01-01")] ["A"] 0 0 0)
    (LoopState.mk
      [("A", [⟨"2020-01-01", "A", "1.0", "", ""⟩,
              ⟨"2020-01-02", "A", "2.0", "", ""⟩,
              ⟨"2020-01-03", "A", "3.0", "L", "D"⟩])]
      [("A", "2020-01-03")] ["A"] 1 0 0)
    [⟨"2020-01-01", "A", "1.0", "", ""⟩, ⟨"2020-01-03", "A", "3.0", "", ""⟩]
    "2020-01-01"
    (by decide)
    (fun _ => rfl)
    (by decide)
  exact ⟨h.2.1 (by decide), h.2.2 (by decide) (by decide)⟩

/-! ## Claim C1: merge correctness -/

theorem validDates_eq_map {E : List Obs}
    (hE : ∀ o ∈ E, validDate o.date = true) :
    validDates E = E.map (fun o => o.date) := by
  rw [validDates, List.filter_eq_self.mpr hE]

/-- Counterexample for C1 as stated: the merged list keeps the existing
side unfiltered, so a malformed existing timestamp (REVISIONS) survives
the merge; and newly fetched observations are not deduplicated against
each other, so a batch with an internal duplicate date yields duplicate
timestamps in the merged list. -/
theorem merge_correctness_counterexample :
    (∃ o ∈ mergeList [⟨"REVISIONS", "A", "x", "", ""⟩]
        [⟨"2020-01-01", "A", "1.0", "", ""⟩], validDate o.date = false) ∧
    ¬ ((mergeList [] [⟨"2020-01-01", "A", "1.0", "", ""⟩,
        ⟨"2020-01-01", "A", "2.0", "", ""⟩]).map (fun o => o.date)).Nodup := by
  refine ⟨by decide, by decide⟩

/-- C1 amended: provided the existing side is clean (well-formed,
duplicate-free timestamps, the shape this merge itself produces when fed
clean batches) and the new batch has no internal duplicate among its
well-formed timestamps, the merged list has duplicate-free timestamps,
contains every well-formed timestamp of existing and new, and contains
only well-formed timestamps; malformed timestamps of the new batch are
excluded (malformed existing rows, were any present, would be kept). -/
theorem merge_correctness_amended (E N : List Obs)
    (hE : ∀ o ∈ E, validDate o.date = true)
    (hEnd : (E.map (fun o => o.date)).Nodup)
    (hNnd : (validDates N).Nodup) :
    ((mergeList E N).map (fun o => o.date)).Nodup ∧
    (∀ o, (o ∈ E ∨ o ∈ N) → validDate o.date = true →
      ∃ o2 ∈ mergeList E N, o2.date = o.date) ∧
    (∀ o ∈ mergeList E N, validDate o.date = true) := by
  have hval : validDates E = E.map (fun o => o.date) := validDates_eq_map hE
  have huniq_sub : (newUnique E N).Sublist (N.filter (fun o => validDate o.date)) := by
    apply List.monotone_filter_right
    intro o ho
    exact (Bool.and_eq_true _ _ |>.mp ho).1
  have huniq_nodup : ((newUnique E N).map (fun o => o.date)).Nodup :=
    List.Nodup.sublist (List.Sublist.map _ huniq_sub) hNnd
  refine ⟨?_, ?_, ?_⟩
  · rw [mergeList, List.map_append]
    refine List.Nodup.append hEnd huniq_nodup ?_
    intro d hdE hdU
    simp only [List.mem_map] at hdU
    rcases hdU with ⟨o, hoU, rfl⟩
    have hpred := (List.mem_filter.mp hoU).2
    simp only [Bool.and_eq_true, Bool.not_eq_true'] at hpred
    have hcontains : (validDates E).contains o.date = true := by
      rw [hval]
      exact (contains_eq_mem _ _).mpr hdE
    rw [hpred.2] at hcontains
    cases hcontains
  · intro o hmem hv
    rcases hmem with hoE | hoN
    · exact ⟨o, List.mem_append_left _ hoE, rfl⟩
    · by_cases hdup : o.date ∈ validDates E
      · rw [hval] at hdup
        simp only [List.mem_map] at hdup
        rcases hdup with ⟨o2, ho2, hdd⟩
        exact ⟨o2, List.mem_append_left _ ho2, hdd⟩
      · refine ⟨o, List.mem_append_right _ ?_, rfl⟩
        rw [newUnique]
        apply List.mem_filter.mpr
        refine ⟨hoN, ?_⟩
        simp only [Bool.and_eq_true, Bool.not_eq_true']
        refine ⟨hv, ?_⟩
        rcases hcc : (validDates E).contains o.date with _ | _
        · rfl
        · exact absurd ((contains_eq_mem _ _).mp hcc) hdup
  · intro o hmem
    rcases List.mem_append.mp hmem with hoE | hoU
    · exact hE o hoE
    · have hpred := (List.mem_filter.mp hoU).2
      exact (Bool.and_eq_true _ _ |>.mp hpred).1

/-- Witness for C1 amended: a clean existing list and a batch with one
duplicate and one new date produce a duplicate-free merged list that
covers all well-formed dates of both sides. -/
theorem merge_correctness_amended_witness :
    ((mergeList [⟨"2020-01-01", "A", "1.0", "", ""⟩]
        [⟨"2020-01-01", "A", "1.0", "L", "D"⟩, ⟨"2020-01-02", "A", "2.0", "L", "D"⟩]).map
          (fun o => o.date)).Nodup ∧
    (∀ o, (o ∈ [(⟨"2020-01-01", "A", "1.0", "", ""⟩ : Obs)] ∨
        o ∈ [(⟨"2020-01-01", "A", "1.0", "L", "D"⟩ : Obs),
             ⟨"2020-01-02", "A", "2.0", "L", "D"⟩]) →
      validDate o.date = true →
      ∃ o2 ∈ mergeList [⟨"2020-01-01", "A", "1.0", "", ""⟩]
        [⟨"2020-01-01", "A", "1.0", "L", "D"⟩, ⟨"2020-01-02", "A", "2.0", "L", "D"⟩],
        o2.date = o.date) ∧
    (∀ o ∈ mergeList [⟨"2020-01-01", "A", "1.0", "", ""⟩]
        [⟨"2020-01-01", "A", "1.0", "L", "D"⟩, ⟨"2020-01-02", "A", "2.0", "L", "D"⟩],
      validDate o.date = true) :=
  merge_correctness_amended
    [⟨"2020-01-01", "A", "1.0", "", ""⟩]
    [⟨"2020-01-01", "A", "1.0", "L", "D"⟩, ⟨"2020-01-02", "A", "2.0", "L", "D"⟩]
    (by decide) (by decide) (by decide)

/-! ## Claim C2: fetch planner boundaries -/

/-- Counterexample for C2 as stated: with no watermark and a stored
observation whose maximum well-formed timestamp is quarter-coded
(2024-Q4 contains the date separator, so it counts), the planner returns
that timestamp itself as the boundary, not one unit past it. -/
theorem plan_fetch_counterexample :
    planStart none [⟨"2024-Q4", "A", "1.0", "", ""⟩] = Except.ok "2024-Q4" ∧
    maxStr? (validDates [⟨"2024-Q4", "A", "1.0", "", ""⟩]) = some "2024-Q4" := by
  refine ⟨by decide, by decide⟩

/-- C2 amended: a truthy daily watermark plans the day after it; a truthy
quarter-coded watermark plans the same period; with no (or falsy)
watermark and stored observations, the derived maximum well-formed stored
timestamp is treated exactly like a watermark (day after when daily
format, same period when quarter-coded); with neither watermark nor
well-formed stored dates the sentinel 1900-01-01 is planned. The planner
is a pure function of the watermark and the stored observations. -/
theorem plan_fetch_amended
    (wm : Option String) (w : String) (existing : List Obs) (m nd nd2 : String) :
    (w ≠ "" → w.data.contains 'Q' = false → nextDay w = some nd →
      planStart (some w) existing = Except.ok nd) ∧
    (w ≠ "" → w.data.contains 'Q' = true →
      planStart (some w) existing = Except.ok w) ∧
    (truthy? wm = false → maxStr? (validDates existing) = some m →
      m.data.contains 'Q' = true → planStart wm existing = Except.ok m) ∧
    (truthy? wm = false → maxStr? (validDates existing) = some m →
      m.data.contains 'Q' = false → nextDay m = some nd2 →
      planStart wm existing = Except.ok nd2) ∧
    (truthy? wm = false → validDates existing = [] →
      planStart wm existing = Except.ok "1900-01-01") := by
  have hple : ∀ s : String, s ≠ "" → (s != "") = true := by
    intro s hs
    simp only [bne_iff_ne, ne_eq]
    exact hs
  have hmne : ∀ m2 : String, maxStr? (validDates existing) = some m2 →
      (m2 != "") = true := by
    intro m2 hm
    have hv := validDate_of_mem_validDates (maxStr?_mem hm)
    rw [validDate, Bool.and_eq_true] at hv
    exact hv.1
  have hie : ∀ m2 : String, maxStr? (validDates existing) = some m2 →
      existing.isEmpty = false := by
    intro m2 hm
    rcases existing with _ | _
    · cases hm
    · rfl
  refine ⟨?_, ?_, ?_, ?_, ?_⟩
  · intro hw hq hnd
    have hqm : 'Q' ∉ w.data := by
      intro hc
      rw [(contains_eq_mem _ _).mpr hc] at hq
      cases hq
    simp [planStart, deriveLast, truthy?, hple w hw, hqm, hnd]
  · intro hw hq
    have hqm : 'Q' ∈ w.data := (contains_eq_mem _ _).mp hq
    simp [planStart, deriveLast, truthy?, hple w hw, hqm]
  · intro hwm hm hq
    have hqm : 'Q' ∈ m.data := (contains_eq_mem _ _).mp hq
    simp [planStart, deriveLast, hwm, hie m hm, hm, hmne m hm, hqm]
  · intro hwm hm hq hnd
    have hqm : 'Q' ∉ m.data := by
      intro hc
      rw [(contains_eq_mem _ _).mpr hc] at hq
      cases hq
    simp [planStart, deriveLast, hwm, hie m hm, hm, hmne m hm, hqm, hnd]
  · intro hwm hvd
    rcases existing with _ | ⟨o, os⟩
    · rcases wm with _ | s
      · simp [planStart, deriveLast]
      · have hs : (s != "") = false := by
          simpa [truthy?] using hwm
        simp [planStart, deriveLast, truthy?, hs]
    · rcases wm with _ | s
      · simp [planStart, deriveLast, truthy?, hvd, maxStr?]
      · have hs : (s != "") = false := by
          simpa [truthy?] using hwm
        have hs0 : s = "" := by
          simpa using hs
        simp [planStart, deriveLast, truthy?, hs, hs0, hvd, maxStr?]

/-- Witness for C2 amended: concrete boundaries for a daily watermark, a
quarter-coded watermark, a derived quarter-coded maximum, a derived daily
maximum, and the no-data sentinel. -/
theorem plan_fetch_amended_witness :
    planStart (some "2023-01-01") [] = Except.ok "2023-01-02" ∧
    planStart (some "2025Q3") [] = Except.ok "2025Q3" ∧
    planStart none [⟨"2024-Q4", "A", "1.0", "", ""⟩] = Except.ok "2024-Q4" ∧
    planStart none [⟨"2020-01-02", "A", "1.0", "", ""⟩] = Except.ok "2020-01-03" ∧
    planStart none [] = Except.ok "1900-01-01" := by
  refine ⟨?_, ?_, ?_, ?_, ?_⟩
  · exact (plan_fetch_amended none "2023-01-01" [] "x" "2023-01-02" "x").1
      (by decide) (by decide) (by decide)
  · exact (plan_fetch_amended none "2025Q3" [] "x" "x" "x").2.1
      (by decide) (by decide)
  · exact (plan_fetch_amended none "x" [⟨"2024-Q4", "A", "1.0", "", ""⟩]
      "2024-Q4" "x" "x").2.2.1 (by decide) (by decide) (by decide)
  · exact (plan_fetch_amended none "x" [⟨"2020-01-02", "A", "1.0", "", ""⟩]
      "2020-01-02" "x" "2020-01-03").2.2.2.1 (by decide) (by decide) (by decide)
      (by decide)
  · exact (plan_fetch_amended none "x" [] "x" "x" "x").2.2.2.2
      (by decide) (by decide)

/-! ## Claims C7 and C10: date normalization -/

theorem norm_unmatched (d f : String) (hq : quarterlyMatch d.data = false)
    (hd : dailyMatch d.data = false) : normalize_date d f = d := by
  unfold normalize_date
  split
  · rfl
  · split
    case _ y1 y2 y3 y4 q n heq =>
      rw [heq] at hq
      rw [hq]
      simp
    case _ y1 y2 y3 y4 h1 m1 m2 h2 d1 d2 heq =>
      rw [heq] at hd
      rw [hd]
      simp
    case _ => rfl

theorem quarterForm_unmatched (a b c e : Char) (ts : List Char) :
    quarterlyMatch (a :: b :: c :: e :: '-' :: 'Q' :: ts) = false ∧
    dailyMatch (a :: b :: c :: e :: '-' :: 'Q' :: ts) = false := by
  rcases ts with _ | ⟨t1, _ | ⟨t2, _ | ⟨t3, _ | ⟨t4, _ | ⟨t5, rest⟩⟩⟩⟩⟩ <;>
    simp [quarterlyMatch, dailyMatch, isDigit4,
      (by decide : (('-' : Char) == 'Q') = false),
      (by decide : ('Q' : Char).isDigit = false)]

/-- Every output of normalize_date is the input itself or has one of the
three produced shapes: a quarter form YYYY-Q..., a year-month form
YYYY-MM, or a bare year YYYY. -/
theorem norm_out (d f : String) :
    normalize_date d f = d ∨
    (∃ a b c e ts, (normalize_date d f).data = a :: b :: c :: e :: '-' :: 'Q' :: ts) ∨
    (∃ a b c e g h, (normalize_date d f).data = [a, b, c, e, '-', g, h]) ∨
    (∃ a b c e, (normalize_date d f).data = [a, b, c, e]) := by
  unfold normalize_date
  split
  · left; rfl
  · split
    case _ y1 y2 y3 y4 q n heq =>
      by_cases hc : quarterlyMatch [y1, y2, y3, y4, q, n] = true
      · rw [if_pos hc]
        right; left
        exact ⟨y1, y2, y3, y4, [n], rfl⟩
      · rw [if_neg hc]
        left; rfl
    case _ y1 y2 y3 y4 h1 m1 m2 h2 d1 d2 heq =>
      by_cases hc : dailyMatch [y1, y2, y3, y4, h1, m1, m2, h2, d1, d2] = true
      · rw [if_pos hc]
        split_ifs with hf1 hf2 hf3 hf4
        · left; rfl
        · right; right; left
          exact ⟨y1, y2, y3, y4, m1, m2, rfl⟩
        · right; left
          refine ⟨y1, y2, y3, y4,
            (toString (quarterOf (digitVal m1 * 10 + digitVal m2))).data, ?_⟩
          simp
        · right; right; right
          exact ⟨y1, y2, y3, y4, rfl⟩
        · left; rfl
      · rw [if_neg hc]
        left; rfl
    case _ => left; rfl

/-- C7: the five documented conversions of normalize_date, plus the
defensive fallback: any date string matching neither the YYYYQn pattern
nor the YYYY-MM-DD pattern is returned unchanged for every frequency. -/
theorem normalize_date_spec :
    normalize_date "2004Q1" "quarterly" = "2004-Q1" ∧
    normalize_date "2021-07-15" "monthly" = "2021-07" ∧
    normalize_date "2021-07-15" "quarterly" = "2021-Q3" ∧
    normalize_date "2021-07-15" "annual" = "2021" ∧
    normalize_date "2021-07-15" "daily" = "2021-07-15" ∧
    (∀ d f : String, quarterlyMatch d.data = false → dailyMatch d.data = false →
      normalize_date d f = d) := by
  refine ⟨by decide, by decide, by decide, by decide, by decide, ?_⟩
  intro d f hq hd
  exact norm_unmatched d f hq hd

/-- Witness for C7: the REVISIONS marker row matches neither pattern and
passes through unchanged. -/
theorem normalize_date_spec_witness :
    normalize_date "REVISIONS" "daily" = "REVISIONS" :=
  normalize_date_spec.2.2.2.2.2 "REVISIONS" "daily" (by decide) (by decide)

/-- C10: normalize_date is idempotent; every transformed output matches
neither recognized input pattern, so a second application passes it
through unchanged. -/
theorem normalize_date_idempotent (d f : String) :
    normalize_date (normalize_date d f) f = normalize_date d f := by
  rcases norm_out d f with h | ⟨a, b, c, e, ts, h⟩ | ⟨a, b, c, e, g, h2, h⟩ |
    ⟨a, b, c, e, h⟩
  · rw [h]; exact h
  · rcases quarterForm_unmatched a b c e ts with ⟨hq, hd⟩
    exact norm_unmatched _ f (h ▸ hq) (h ▸ hd)
  · refine norm_unmatched _ f ?_ ?_ <;> rw [h] <;> rfl
  · refine norm_unmatched _ f ?_ ?_ <;> rw [h] <;> rfl

/-! ## Infrastructure for the wide-table transform -/

theorem keys_upsertCell (m : List (String × List (String × String)))
    (t : String × String × String) :
    (upsertCell m t).map Prod.fst =
      if t.1 ∈ m.map Prod.fst then m.map Prod.fst
      else m.map Prod.fst ++ [t.1] := by
  induction m with
  | nil => simp [upsertCell]
  | cons p rest ih =>
    rcases p with ⟨d0, cells0⟩
    by_cases h0 : d0 = t.1
    · subst h0
      simp [upsertCell]
    · have hne : (d0 == t.1) = false := beq_eq_false_iff_ne.mpr h0
      have hrw : upsertCell ((d0, cells0) :: rest) t
          = (d0, cells0) :: upsertCell rest t := by
        simp [upsertCell, hne]
      rw [hrw]
      simp only [List.map_cons, ih]
      by_cases hmem : t.1 ∈ rest.map Prod.fst
      · have : t.1 ∈ d0 :: rest.map Prod.fst := List.mem_cons_of_mem _ hmem
        simp [hmem, this]
      · have : t.1 ∉ d0 :: rest.map Prod.fst := by
          intro hc
          rcases List.mem_cons.mp hc with hc1 | hc2
          · exact h0 hc1.symm
          · exact hmem hc2
        simp [hmem, this]

theorem keys_nodup_upsertCell
    {m : List (String × List (String × String))} {t : String × String × String}
    (h : (m.map Prod.fst).Nodup) : ((upsertCell m t).map Prod.fst).Nodup := by
  rw [keys_upsertCell]
  by_cases hmem : t.1 ∈ m.map Prod.fst
  · rw [if_pos hmem]; exact h
  · rw [if_neg hmem]
    refine List.Nodup.append h (List.nodup_singleton _) ?_
    intro a ha hb
    rcases List.mem_singleton.mp hb with rfl
    exact hmem ha

theorem mem_keys_upsertCell (m : List (String × List (String × String)))
    (t : String × String × String) (d : String) :
    d ∈ (upsertCell m t).map Prod.fst ↔ d ∈ m.map Prod.fst ∨ d = t.1 := by
  rw [keys_upsertCell]
  by_cases hmem : t.1 ∈ m.map Prod.fst
  · rw [if_pos hmem]
    constructor
    · exact fun h => Or.inl h
    · rintro (h | rfl)
      · exact h
      · exact hmem
  · rw [if_neg hmem]
    simp [List.mem_append]

theorem keys_nodup_foldl (ts : List (String × String × String))
    (m : List (String × List (String × String)))
    (h : (m.map Prod.fst).Nodup) :
    ((ts.foldl upsertCell m).map Prod.fst).Nodup := by
  induction ts generalizing m with
  | nil => exact h
  | cons t ts ih => exact ih (upsertCell m t) (keys_nodup_upsertCell h)

theorem mem_keys_foldl (ts : List (String × String × String))
    (m : List (String × List (String × String))) (d : String) :
    d ∈ (ts.foldl upsertCell m).map Prod.fst ↔
      d ∈ m.map Prod.fst ∨ ∃ t ∈ ts, t.1 = d := by
  induction ts generalizing m with
  | nil => simp
  | cons t ts ih =>
    simp only [List.foldl_cons]
    rw [ih, mem_keys_upsertCell]
    constructor
    · rintro ((h | rfl) | ⟨t2, ht2, rfl⟩)
      · exact Or.inl h
      · exact Or.inr ⟨t, List.mem_cons_self _ _, rfl⟩
      · exact Or.inr ⟨t2, List.mem_cons_of_mem _ ht2, rfl⟩
    · rintro (h | ⟨t2, ht2, rfl⟩)
      · exact Or.inl (Or.inl h)
      · rcases List.mem_cons.mp ht2 with rfl | ht2
        · exact Or.inl (Or.inr rfl)
        · exact Or.inr ⟨t2, ht2, rfl⟩

theorem lookupCell_upsertCell (m : List (String × List (String × String)))
    (t : String × String × String) (d c : String) :
    lookupCell (upsertCell m t) d c =
      if t.1 = d ∧ t.2.1 = c then some t.2.2 else lookupCell m d c := by
  induction m with
  | nil =>
    by_cases hd : t.1 = d
    · subst hd
      by_cases hc : t.2.1 = c
      · subst hc
        simp [upsertCell, lookupCell, List.lookup]
      · have hb : (c == t.2.1) = false :=
          beq_eq_false_iff_ne.mpr (fun h => hc h.symm)
        simp [upsertCell, lookupCell, List.lookup, hb, hc]
    · have hb : (d == t.1) = false :=
        beq_eq_false_iff_ne.mpr (fun h => hd h.symm)
      simp [upsertCell, lookupCell, List.lookup, hb, hd]
  | cons p rest ih =>
    rcases p with ⟨d0, cells0⟩
    by_cases h0 : d0 = t.1
    · subst h0
      have hrw : upsertCell ((t.1, cells0) :: rest) t
          = (t.1, setA t.2.1 t.2.2 cells0) :: rest := by
        simp [upsertCell]
      rw [hrw]
      by_cases hd : t.1 = d
      · subst hd
        have hl : lookupCell ((t.1, setA t.2.1 t.2.2 cells0) :: rest) t.1 c
            = (setA t.2.1 t.2.2 cells0).lookup c := by
          simp [lookupCell, List.lookup]
        have hr : lookupCell ((t.1, cells0) :: rest) t.1 c = cells0.lookup c := by
          simp [lookupCell, List.lookup]
        rw [hl, hr, lookup_setA]
        by_cases hc : t.2.1 = c
        · rw [if_pos hc.symm, if_pos ⟨rfl, hc⟩]
        · rw [if_neg (fun h => hc h.symm), if_neg (fun hh => hc hh.2)]
      · have hb : (d == t.1) = false :=
          beq_eq_false_iff_ne.mpr (fun h => hd h.symm)
        have hcc : ¬(t.1 = d ∧ t.2.1 = c) := by
          rintro ⟨h1, _⟩
          exact hd h1
        simp [lookupCell, List.lookup, hb, hcc]
    · have hne : (d0 == t.1) = false := beq_eq_false_iff_ne.mpr h0
      have hrw : upsertCell ((d0, cells0) :: rest) t
          = (d0, cells0) :: upsertCell rest t := by
        simp [upsertCell, hne]
      rw [hrw]
      by_cases hd : d = d0
      · subst hd
        have hcc : ¬(t.1 = d ∧ t.2.1 = c) := by
          rintro ⟨h1, _⟩
          exact h0 h1.symm
        simp [lookupCell, List.lookup, hcc]
      · have hb : (d == d0) = false := beq_eq_false_iff_ne.mpr hd
        have hl : lookupCell ((d0, cells0) :: upsertCell rest t) d c
            = lookupCell (upsertCell rest t) d c := by
          simp [lookupCell, List.lookup, hb]
        have hr : lookupCell ((d0, cells0) :: rest) d c
            = lookupCell rest d c := by
          simp [lookupCell, List.lookup, hb]
        rw [hl, hr]
        exact ih

theorem lookupCell_foldl (ts : List (String × String × String))
    (m : List (String × List (String × String))) (d c : String) :
    lookupCell (ts.foldl upsertCell m) d c =
      ((ts.filter (fun t => t.1 == d && t.2.1 == c)).getLast?).elim
        (lookupCell m d c) (fun t => some t.2.2) := by
  induction ts generalizing m with
  | nil => simp
  | cons t ts ih =>
    simp only [List.foldl_cons, List.filter_cons]
    by_cases hp : (t.1 == d && t.2.1 == c) = true
    · rw [if_pos hp]
      rw [ih]
      simp only [Bool.and_eq_true, beq_iff_eq] at hp
      rcases hfe : ts.filter (fun t => t.1 == d && t.2.1 == c) with _ | ⟨x, xs⟩
      · rw [hfe]
        simp only [List.getLast?_nil, List.getLast?_singleton, Option.elim]
        rw [lookupCell_upsertCell, if_pos ⟨hp.1, hp.2⟩]
      · rw [hfe]
        simp only [List.getLast?_cons_cons]
        have hex : (x :: xs).getLast? = some ((x :: xs).getLast (by simp)) :=
          List.getLast?_eq_getLast _ (by simp)
        rw [hex]
        rfl
    · rw [if_neg hp]
      rw [ih]
      rcases hlast : (ts.filter (fun t => t.1 == d && t.2.1 == c)).getLast? with
        _ | tl
      · rw [hlast]
        have hnp : ¬(t.1 = d ∧ t.2.1 = c) := by
          rintro ⟨h1, h2⟩
          apply hp
          simp [h1, h2]
        simp only [Option.elim]
        rw [lookupCell_upsertCell, if_neg hnp]
      · rw [hlast]
        rfl

theorem option_elim_none_some {α β : Type} (o : Option α) (f : α → β) :
    o.elim (none : Option β) (fun a => some (f a)) = o.map f := by
  cases o <;> rfl

theorem sortStrings_sorted (l : List String) :
    List.Sorted (fun a b => strLe a b = true) (sortStrings l) :=
  @List.sorted_insertionSort String (fun a b => strLe a b = true) _
    ⟨strLe_total⟩ ⟨fun _ _ _ => strLe_trans⟩ l

theorem sortStrings_perm (l : List String) : (sortStrings l).Perm l :=
  List.perm_insertionSort _ l

theorem sortStrings_pairwise_lt {l : List String} (h : l.Nodup) :
    List.Pairwise (fun a b => strLt a b = true) (sortStrings l) := by
  have hs : List.Pairwise (fun a b => strLe a b = true) (sortStrings l) :=
    sortStrings_sorted l
  have hn : (sortStrings l).Nodup := (sortStrings_perm l).symm.nodup h
  refine (hs.and hn).imp ?_
  rintro a b ⟨hle, hne⟩
  rcases strLt_or_eq_of_le hle with hlt | heq
  · exact hlt
  · exact absurd heq hne

theorem transform_rows_eq {store : List (String × List Obs)} {f : String}
    {mapping : List (String × String)}
    {rows : List (String × List (String × Option String))}
    (h : transform_dataset store f mapping = some rows) :
    rows = (sortStrings ((dateRowsOf store f mapping).map Prod.fst)).map
      (fun d => (d, (mapping.map (fun p => p.2)).map
        (fun c => (c, lookupCell (dateRowsOf store f mapping) d c)))) := by
  by_cases hie : (dateRowsOf store f mapping).isEmpty = true
  · simp only [transform_dataset, hie, if_true] at h
    cases h
  · simp only [transform_dataset, hie, Bool.false_eq_true, if_false,
      Option.some.injEq] at h
    exact h.symm

theorem map_fst_pair {α β : Type} (l : List α) (g : α → β) :
    (l.map (fun d => (d, g d))).map Prod.fst = l := by
  induction l with
  | nil => rfl
  | cons x xs ih => simp [ih]

theorem transform_keys_fst {store : List (String × List Obs)} {f : String}
    {mapping : List (String × String)}
    {rows : List (String × List (String × Option String))}
    (h : transform_dataset store f mapping = some rows) :
    rows.map Prod.fst = sortStrings ((dateRowsOf store f mapping).map Prod.fst) := by
  rw [transform_rows_eq h]
  exact map_fst_pair _ _

theorem dateRows_keys_nodup (store : List (String × List Obs)) (f : String)
    (mapping : List (String × String)) :
    ((dateRowsOf store f mapping).map Prod.fst).Nodup :=
  keys_nodup_foldl _ [] (by simp)

theorem dateRows_keys_mem (store : List (String × List Obs)) (f : String)
    (mapping : List (String × String)) (d : String) :
    d ∈ (dateRowsOf store f mapping).map Prod.fst ↔
      ∃ t ∈ contribs store f mapping, t.1 = d := by
  have h := mem_keys_foldl (contribs store f mapping) [] d
  simpa [dateRowsOf] using h

theorem transform_none_iff (store : List (String × List Obs)) (f : String)
    (mapping : List (String × String)) :
    transform_dataset store f mapping = none ↔ contribs store f mapping = [] := by
  by_cases hie : (dateRowsOf store f mapping).isEmpty = true
  · have hdr : dateRowsOf store f mapping = [] := by
      rcases hdd : dateRowsOf store f mapping with _ | _
      · rfl
      · rw [hdd] at hie
        cases hie
    constructor
    · intro _
      rcases hcc : contribs store f mapping with _ | ⟨t, ts⟩
      · rfl
      · have : t.1 ∈ (dateRowsOf store f mapping).map Prod.fst :=
          (dateRows_keys_mem store f mapping t.1).mpr
            ⟨t, by rw [hcc]; exact List.mem_cons_self _ _, rfl⟩
        rw [hdr] at this
        cases this
    · intro _
      simp [transform_dataset, hie]
  · constructor
    · intro h
      simp only [transform_dataset, hie, Bool.false_eq_true, if_false] at h
      cases h
    · intro h
      have hdr : dateRowsOf store f mapping = [] := by
        rw [dateRowsOf, h]
        rfl
      rw [hdr] at hie
      exact absurd rfl hie

theorem transform_cells {store : List (String × List Obs)} {f : String}
    {mapping : List (String × String)}
    {rows : List (String × List (String × Option String))}
    (h : transform_dataset store f mapping = some rows) :
    ∀ r ∈ rows, ∀ p ∈ r.2,
      p.2 = (((contribs store f mapping).filter
        (fun t => t.1 == r.1 && t.2.1 == p.1)).getLast?).map (fun t => t.2.2) := by
  intro r hr p hp
  rw [transform_rows_eq h] at hr
  rcases List.mem_map.mp hr with ⟨d, _, rfl⟩
  rcases List.mem_map.mp hp with ⟨c, _, rfl⟩
  show lookupCell (dateRowsOf store f mapping) d c = _
  rw [dateRowsOf, lookupCell_foldl]
  have hbase : lookupCell [] d c = none := rfl
  rw [hbase, option_elim_none_some]

theorem contribs_numeric (store : List (String × List Obs)) (f : String)
    (mapping : List (String × String)) :
    ∀ t ∈ contribs store f mapping, isNumeric t.2.2 = true := by
  intro t ht
  rw [contribs] at ht
  rcases List.mem_flatMap.mp ht with ⟨p, _, hin⟩
  rcases List.mem_flatMap.mp hin with ⟨o, _, hio⟩
  by_cases hd : (o.date != "") = true
  · rw [if_pos hd] at hio
    by_cases hn : isNumeric o.value = true
    · rw [if_pos hn] at hio
      rcases List.mem_singleton.mp hio with rfl
      exact hn
    · rw [if_neg hn] at hio
      cases hio
  · rw [if_neg hd] at hio
    cases hio

/-! ## Claim C8: wide-table pivot shape -/

/-- C8: the transform is absent exactly when no entity contributes any
valid observation; otherwise the emitted rows are non-empty, their dates
are strictly ascending (one row per distinct normalized date), a date has
a row exactly when some valid observation normalizes to it (union over
all constituent entities), every row carries the mapped output columns in
declared order, and every cell holds the value of the last contribution
written to that (date, column) pair in traversal order. -/
theorem transform_one_row_per_date_sorted_lww
    (store : List (String × List Obs)) (f : String)
    (mapping : List (String × String)) :
    (transform_dataset store f mapping = none ↔
      contribs store f mapping = []) ∧
    (∀ rows, transform_dataset store f mapping = some rows →
      rows ≠ [] ∧
      List.Pairwise (fun a b => strLt a b = true) (rows.map Prod.fst) ∧
      (∀ d, d ∈ rows.map Prod.fst ↔ ∃ t ∈ contribs store f mapping, t.1 = d) ∧
      (∀ r ∈ rows, r.2.map Prod.fst = mapping.map (fun p => p.2)) ∧
      (∀ r ∈ rows, ∀ p ∈ r.2,
        p.2 = (((contribs store f mapping).filter
          (fun t => t.1 == r.1 && t.2.1 == p.1)).getLast?).map
            (fun t => t.2.2))) := by
  refine ⟨transform_none_iff store f mapping, ?_⟩
  intro rows hrows
  have hkeys := transform_keys_fst hrows
  refine ⟨?_, ?_, ?_, ?_, transform_cells hrows⟩
  · intro hnil
    have h1 : transform_dataset store f mapping ≠ none := by
      rw [hrows]
      intro hc
      cases hc
    have h2 : contribs store f mapping ≠ [] := by
      intro hc
      exact h1 ((transform_none_iff store f mapping).mpr hc)
    rcases List.exists_mem_of_ne_nil _ h2 with ⟨t, ht⟩
    have : t.1 ∈ rows.map Prod.fst := by
      rw [hkeys]
      exact ((sortStrings_perm _).mem_iff).mpr
        ((dateRows_keys_mem store f mapping t.1).mpr ⟨t, ht, rfl⟩)
    rw [hnil] at this
    cases this
  · rw [hkeys]
    exact sortStrings_pairwise_lt (dateRows_keys_nodup store f mapping)
  · intro d
    rw [hkeys, (sortStrings_perm _).mem_iff]
    exact dateRows_keys_mem store f mapping d
  · intro r hr
    rw [transform_rows_eq hrows] at hr
    rcases List.mem_map.mp hr with ⟨d, _, rfl⟩
    simp [List.map_map]

/-- Witness for C8: the concrete two-series dataset exercising collapse
onto a shared date, last-write-wins on a duplicated (date, column) pair,
ascending output order, and the absent result on an empty store. -/
theorem transform_one_row_per_date_sorted_lww_witness :
    (transform_dataset [] "daily" [("A", "a")] = none ↔
      contribs [] "daily" [("A", "a")] = []) ∧
    (transform_dataset
        [("A", [⟨"2020-01-02", "A", "2.0", "", ""⟩,
                ⟨"2020-01-01", "A", "1.0", "", ""⟩]),
         ("B", [⟨"2020-01-01", "B", "5.5", "", ""⟩,
                ⟨"2020-01-01", "B", "6.5", "", ""⟩])]
        "daily" [("A", "a"), ("B", "b")]
      = some [("2020-01-01", [("a", some "1.0"), ("b", some "6.5")]),
              ("2020-01-02", [("a", some "2.0"), ("b", none)])]) ∧
    ([("2020-01-01", [("a", some "1.0"), ("b", some "6.5")]),
      ("2020-01-02", [("a", some "2.0"), ("b", none)])] :
        List (String × List (String × Option String))) ≠ [] ∧
    List.Pairwise (fun a b => strLt a b = true)
      (([("2020-01-01", [("a", some "1.0"), ("b", some "6.5")]),
         ("2020-01-02", [("a", some "2.0"), ("b", none)])] :
        List (String × List (String × Option String))).map Prod.fst) := by
  have h := transform_one_row_per_date_sorted_lww
    [("A", [⟨"2020-01-02", "A", "2.0", "", ""⟩,
            ⟨"2020-01-01", "A", "1.0", "", ""⟩]),
     ("B", [⟨"2020-01-01", "B", "5.5", "", ""⟩,
            ⟨"2020-01-01", "B", "6.5", "", ""⟩])]
    "daily" [("A", "a"), ("B", "b")]
  have heq : transform_dataset
      [("A", [⟨"2020-01-02", "A", "2.0", "", ""⟩,
              ⟨"2020-01-01", "A", "1.0", "", ""⟩]),
       ("B", [⟨"2020-01-01", "B", "5.5", "", ""⟩,
              ⟨"2020-01-01", "B", "6.5", "", ""⟩])]
      "daily" [("A", "a"), ("B", "b")]
    = some [("2020-01-01", [("a", some "1.0"), ("b", some "6.5")]),
            ("2020-01-02", [("a", some "2.0"), ("b", none)])] := by decide
  have h2 := h.2 _ heq
  exact ⟨(transform_one_row_per_date_sorted_lww [] "daily" [("A", "a")]).1,
    heq, h2.1, h2.2.1⟩

/-! ## Claim C9: numeric values -/

/-- Counterexample for C9 as stated: the fetch path stores raw values
without any numeric check, so a merge step writes the non-numeric value
Bank holiday into the observation store. -/
theorem nonnumeric_stored_counterexample :
    (stepSeries (fun _ _ => Except.ok (some [⟨"2020-01-01", "A", "Bank holiday", "", ""⟩]))
        ⟨"A", "L", "D"⟩ (LoopState.mk [] [] [] 0 0 0)).map
        (fun s => s.obsStore.lookup "A")
      = Except.ok (some [⟨"2020-01-01", "A", "Bank holiday", "L", "D"⟩]) ∧
    isNumeric "Bank holiday" = false := by
  refine ⟨by decide, by decide⟩

/-- C9 amended: non-numeric raw values are stored as-is in the
observation store; they are dropped at wide-table transform time, so every
cell value the transform emits parses as a number. -/
theorem nonnumeric_dropped_at_transform
    (store : List (String × List Obs)) (f : String)
    (mapping : List (String × String))
    (rows : List (String × List (String × Option String)))
    (h : transform_dataset store f mapping = some rows) :
    ∀ r ∈ rows, ∀ p ∈ r.2, ∀ v, p.2 = some v → isNumeric v = true := by
  intro r hr p hp v hv
  have hcell := transform_cells h r hr p hp
  rw [hcell] at hv
  rcases hlast : ((contribs store f mapping).filter
      (fun t => t.1 == r.1 && t.2.1 == p.1)).getLast? with _ | t
  · rw [hlast] at hv
    cases hv
  · rw [hlast] at hv
    have htm : t ∈ (contribs store f mapping).filter
        (fun t => t.1 == r.1 && t.2.1 == p.1) :=
      List.mem_of_mem_getLast? hlast
    have htc : t ∈ contribs store f mapping := (List.mem_filter.mp htm).1
    have hnum := contribs_numeric store f mapping t htc
    simp only [Option.map_some', Option.some.injEq] at hv
    rw [← hv]
    exact hnum

/-- Witness for C9 amended: in the concrete transform output above every
present cell value parses as a number. -/
theorem nonnumeric_dropped_at_transform_witness :
    isNumeric "6.5" = true ∧ isNumeric "1.0" = true := by
  have h := nonnumeric_dropped_at_transform
    [("A", [⟨"2020-01-01", "A", "1.0", "", ""⟩]),
     ("B", [⟨"2020-01-01", "B", "6.5", "", ""⟩])]
    "daily" [("A", "a"), ("B", "b")]
    [("2020-01-01", [("a", some "1.0"), ("b", some "6.5")])]
    (by decide)
  exact ⟨h ("2020-01-01", [("a", some "1.0"), ("b", some "6.5")]) (by decide)
      ("b", some "6.5") (by decide) "6.5" rfl,
    h ("2020-01-01", [("a", some "1.0"), ("b", some "6.5")]) (by decide)
      ("a", some "1.0") (by decide) "1.0" rfl⟩

end BoC
